import Mathlib

/-!
Verification of the GA engine of `GA_mouse_SAN`
(`src/bondarenko/notebooks/pypoptim/algorythm/ga/ga.py`).

The engine is shallowly embedded: gene values, fitness values and rates are
rationals; the random source is an oracle of draw streams; Python object
identity (`is`) is a `uid` field; Python exceptions are an `Err` value in an
`Except` result; the unbounded retry loops of the source are given explicit
fuel, so every claim about a completed call is stated under a hypothesis that
the call returned a result.  Collaborator code that lives elsewhere in the
repository (the `Solution` class, `tournament_selection`, `sbx_crossover`,
`cauchy_mutation_population`, the `pypoptim.helpers` gene transforms) is
modelled from the spec, as marked on each definition.
-/

namespace GAMouse

/-- Python exceptions surfaced by the engine (`TypeError`, `ValueError`,
`KeyError`, and `AttributeError` — raised when an attribute such as `sol.x`
is accessed on an object that lacks it), plus `noProgress`, which marks a
loop of the source that has not produced a result within the modelled fuel
(the Python loop would still be running). -/
inductive Err where
  | typeErr
  | valueErr
  | keyErr
  | attrErr
  | noProgress
deriving DecidableEq, Repr

/-- Modelled from the spec: the caller-supplied `Solution` object
(`pypoptim.algorythm.solution.Solution`, not under `src/`): a gene vector
`x`, a fitness `y` (set by the caller's `update` hook; a fresh solution
carries the placeholder `0`), a key-value payload `data`, the `is_updated` /
`is_valid` lifecycle flags, and `uid` standing for Python object identity
(`is`).  Solutions are totally ordered by fitness, ascending. -/
structure Solution where
  x : List ℚ
  y : ℚ
  data : List (String × ℚ)
  updated : Bool
  valid : Bool
  uid : ℕ
deriving DecidableEq, Repr

/-- Modelled from the spec: a freshly constructed solution
`SolutionSubclass(genes, **data)` — fitness unset (placeholder `0`), not
updated, not valid, with the identity it is given. -/
def mkSolution (genes : List ℚ) (data : List (String × ℚ)) (uid : ℕ) : Solution :=
  ⟨genes, 0, data, false, false, uid⟩

/-- The default used for (guarded) list indexing; the guarded paths of the
source never index an empty population. -/
def defSol : Solution := mkSolution [] [] 0

/-- Modelled from the spec: Python's `min(a, b)` under the solution total
order — `b` only when `b < a`. -/
def minSol (a b : Solution) : Solution :=
  if b.y < a.y then b else a

/-- Modelled from the spec: the comparison used by Python's `sorted` on
solutions (the total preorder induced by `<` on fitness). -/
def Solution.ble (a b : Solution) : Bool :=
  decide (a.y ≤ b.y)

/-- Modelled from the spec: the payload accessor `sol[key]`. -/
def Solution.getItem (sol : Solution) (k : String) : Option ℚ :=
  sol.data.lookup k

/-- Modelled from the spec: the payload mutator `sol[key] = v`. -/
def Solution.setItem (sol : Solution) (k : String) (v : ℚ) : Solution :=
  { sol with data := (k, v) :: sol.data }

/-- The engine configuration fields of class `GA` used by the population
operations (`ga.py` lines 22-111), after construction-time validation.  The
gene transform pair (`GA._transform_genes` / `GA._transform_genes_back`,
delegating to `pypoptim.helpers`, which is not under `src/`) is carried as a
pair of abstract functions on gene vectors, and the caller-defined per-
solution `update` hook likewise; the claims about the population operations
do not depend on their values. -/
structure GA where
  bounds : List (ℚ × ℚ)
  crossover_rate : ℚ
  selection_force : ℕ
  keys_data_transmit : List String
  transform_genes : List ℚ → List ℚ
  transform_genes_back : List ℚ → List ℚ
  update_hook : Solution → Solution

/-- The random source `self._rng`, as an oracle of draw streams indexed by a
draw counter `t`.  `sel t j` is the population position of the `j`-th
candidate drawn by the tournament started at time `t`; `unif t` a uniform
draw in `[0,1)`; `sbx t g1 g2` the offspring gene pair of `sbx_crossover`
(`ga/crossover.py`, not under `src/`, modelled as an oracle since only its
pairwise shape matters to the claims); `mutGenes t g` the Cauchy-mutated
gene vector of one individual (`ga/mutation.py`, not under `src/`);
`gen t` the uniform transformed gene draws of `generate_solution`. -/
structure Rng where
  sel : ℕ → ℕ → ℕ
  unif : ℕ → ℚ
  sbx : ℕ → List ℚ → List ℚ → List ℚ × List ℚ
  mutGenes : ℕ → List ℚ → List ℚ
  gen : ℕ → List ℚ

/-- Modelled from the spec: `is_values_inside_bounds` (`pypoptim.helpers`,
not under `src/`): every gene lies within its `(lower, upper)` pair. -/
def is_values_inside_bounds (x : List ℚ) (bounds : List (ℚ × ℚ)) : Bool :=
  decide (x.length = bounds.length) &&
    (List.zip x bounds).all fun p => decide (p.2.1 ≤ p.1) && decide (p.1 ≤ p.2.2)

/-- `GA.is_solution_inside_bounds` (`ga.py` lines 290-293) with the default
`bounds=None`, i.e. against the engine's raw bounds. -/
def is_solution_inside_bounds (ga : GA) (sol : Solution) : Bool :=
  is_values_inside_bounds sol.x ga.bounds

/-- `GA.filter_population` (`ga.py` lines 295-316): the filtering loop —
skip a solution that is not updated, skip one that is not valid, skip one
outside the raw bounds, append every other one in order (the `logger.debug`
calls are diagnostics with no effect on the result). -/
def filter_population (ga : GA) : List Solution → List Solution
  | [] => []
  | sol :: rest =>
    if ¬ sol.updated then filter_population ga rest
    else if ¬ sol.valid then filter_population ga rest
    else if ¬ is_solution_inside_bounds ga sol then filter_population ga rest
    else sol :: filter_population ga rest

/-- `GA.get_elites` (`ga.py` lines 276-283): range-check `size`, then
`sorted(population)[:size]`.  Python's `sorted` is a stable sort by the
solution total order (ascending fitness); it is modelled by the stable
`List.mergeSort`, which is extensionally the unique stable sort for this
total preorder.  The `isinstance(size, int)` check is absorbed by the
type of `size`. -/
def get_elites (pop : List Solution) (size : ℤ) : Except Err (List Solution) :=
  if 0 ≤ size ∧ size ≤ pop.length then
    .ok ((pop.mergeSort Solution.ble).take size.toNat)
  else .error .valueErr

/-- `GA.update_population` (`ga.py` lines 285-288): run each solution's
caller-defined `update` hook. -/
def update_population (ga : GA) (pop : List Solution) : List Solution :=
  pop.map ga.update_hook

/-- Modelled from the spec: `tournament_selection` (`ga/selection.py`, not
under `src/`): draw `force` candidates from the population (positions from
the random source, reduced modulo the population length) and return the best
— the minimum under the solution total order.  `GA._selection` (`ga.py`
lines 218-221) applies it with the engine's `selection_force`. -/
def tournament_selection (pop : List Solution) (force : ℕ) (ω : Rng) (t : ℕ) : Solution :=
  match (List.range force).map fun j => pop.getD (ω.sel t j % pop.length) defSol with
  | [] => pop.getD 0 defSol
  | c :: cs => cs.foldl minSol c

/-- The parent-selection retry loop of `GA.get_mutants` (`ga.py` lines
245-248): while the two current parents are the same object, redraw both via
tournament selection.  The caller starts it at
`parent1 = parent2 = population[0]`.  `fuel` bounds the number of modelled
redraw rounds; exhaustion returns `Err.noProgress` (the Python loop would
still be redrawing). -/
def select_distinct_parents (ga : GA) (ω : Rng) (pop : List Solution) :
    (fuel : ℕ) → (p1 p2 : Solution) → (t : ℕ) → Except Err (Solution × Solution × ℕ)
  | 0, p1, p2, t =>
    if p1.uid = p2.uid then .error .noProgress else .ok (p1, p2, t)
  | fuel + 1, p1, p2, t =>
    if p1.uid = p2.uid then
      select_distinct_parents ga ω pop fuel
        (tournament_selection pop ga.selection_force ω t)
        (tournament_selection pop ga.selection_force ω (t + 1)) (t + 2)
    else .ok (p1, p2, t)

/-- `GA._transform_solution` (`ga.py` lines 154-159): a fresh solution built
from the forward-transformed genes and the same payload, with the fitness
copied over afterwards (`sol_transformed._y = sol.y`). -/
def _transform_solution (ga : GA) (sol : Solution) (uid : ℕ) : Solution × ℕ :=
  ({ mkSolution (ga.transform_genes sol.x) sol.data uid with y := sol.y }, uid + 1)

/-- `GA._transform_solution_back` (`ga.py` lines 161-165): a fresh solution
built from the backward-transformed genes and the same payload, with the
fitness copied over afterwards. -/
def _transform_solution_back (ga : GA) (sol : Solution) (uid : ℕ) : Solution × ℕ :=
  ({ mkSolution (ga.transform_genes_back sol.x) sol.data uid with y := sol.y }, uid + 1)

/-- `GA._transform_population` (`ga.py` lines 180-181). -/
def _transform_population (ga : GA) : List Solution → ℕ → List Solution × ℕ
  | [], uid => ([], uid)
  | sol :: rest, uid =>
    let p := _transform_solution ga sol uid
    let r := _transform_population ga rest p.2
    (p.1 :: r.1, r.2)

/-- `GA._transform_population_back` (`ga.py` lines 183-184). -/
def _transform_population_back (ga : GA) : List Solution → ℕ → List Solution × ℕ
  | [], uid => ([], uid)
  | sol :: rest, uid =>
    let p := _transform_solution_back ga sol uid
    let r := _transform_population_back ga rest p.2
    (p.1 :: r.1, r.2)

/-- Modelled from the spec: `cauchy_mutation_population` (`ga/mutation.py`,
not under `src/`): per individual, independently perturb the gene vector
(heavy-tailed offsets clamped into the transformed bounds — the produced
gene vector comes from the random source), keeping the population's length
and order.  `GA._mutate_population_transformed` (`ga.py` lines 194-203)
applies it with the engine's configuration. -/
def _mutate_population_transformed (ω : Rng) (pop : List Solution) (t : ℕ) :
    List Solution × ℕ :=
  (pop.mapIdx (fun i s => { s with x := ω.mutGenes (t + i) s.x }), t + pop.length)

/-- The recursion of `GA._transmit_solution_data` (`ga.py` lines 214-216)
over the keys still to copy: `sol_child[key] = copy.deepcopy(sol_parent[key])`
for each key (deep-copying a payload value is the value itself in this pure
model); a key absent from the parent's payload is Python's `KeyError`. -/
def transmit_data_go (parent : Solution) : List String → Solution → Except Err Solution
  | [], child => .ok child
  | k :: ks, child =>
    match parent.getItem k with
    | some v => transmit_data_go parent ks (child.setItem k v)
    | none => .error .keyErr

/-- `GA._transmit_solution_data` (`ga.py` lines 214-216): copy every payload
key of `keys_data_transmit` from parent to child. -/
def _transmit_solution_data (ga : GA) (parent child : Solution) : Except Err Solution :=
  transmit_data_go parent ga.keys_data_transmit child

/-- The offspring-production body of the `GA.get_mutants` loop (`ga.py`
lines 254-266), given the two already-transformed parents: when the drawn
uniform is at most `crossover_rate`, produce the SBX offspring gene pair,
and give each child the payload keys of the lesser (minimum under the
solution total order) of the two transformed parents; otherwise the two
children are deep copies of the two transformed parents — fresh objects
with all fields unchanged. -/
def produce_children (ga : GA) (ω : Rng) (p1t p2t : Solution) (t uid : ℕ) :
    Except Err (Solution × Solution × ℕ × ℕ) :=
  if ω.unif t ≤ ga.crossover_rate then
    let gp := ω.sbx (t + 1) p1t.x p2t.x
    let pd := minSol p1t p2t
    match _transmit_solution_data ga pd (mkSolution gp.1 [] uid),
          _transmit_solution_data ga pd (mkSolution gp.2 [] (uid + 1)) with
    | .ok c1, .ok c2 => .ok (c1, c2, t + 2, uid + 2)
    | .error e, _ => .error e
    | .ok _, .error e => .error e
  else
    .ok ({ p1t with uid := uid }, { p2t with uid := uid + 1 }, t + 2, uid + 2)

/-- The accumulation loop of `GA.get_mutants` (`ga.py` lines 241-266):
while fewer than `size` children have been accumulated, select two distinct
parents starting from `population[0], population[0]`, forward-transform
both, and append the two produced children.  `fuel` bounds the number of
modelled loop iterations and is also handed to the selection retry loop. -/
def get_mutants_loop (ga : GA) (ω : Rng) (pop : List Solution) (size : ℕ) :
    (fuel : ℕ) → (acc : List Solution) → (t uid : ℕ) → Except Err (List Solution × ℕ × ℕ)
  | 0, acc, t, uid =>
    if acc.length < size then .error .noProgress else .ok (acc, t, uid)
  | fuel + 1, acc, t, uid =>
    if acc.length < size then
      match select_distinct_parents ga ω pop fuel (pop.getD 0 defSol) (pop.getD 0 defSol) t with
      | .error e => .error e
      | .ok (p1, p2, t1) =>
        let q1 := _transform_solution ga p1 uid
        let q2 := _transform_solution ga p2 q1.2
        match produce_children ga ω q1.1 q2.1 t1 q2.2 with
        | .error e => .error e
        | .ok (c1, c2, t2, uid2) =>
          get_mutants_loop ga ω pop size fuel (acc ++ [c1, c2]) t2 uid2
    else .ok (acc, t, uid)

/-- `GA.get_mutants` (`ga.py` lines 232-274): reject a population smaller
than 3 and a negative `size` (the `isinstance(size, int)` check is absorbed
by the type of `size`); accumulate children pairwise, truncate to exactly
`size` (odd sizes against pairwise production), batch-mutate the truncated
accumulation in transformed space, and transform every result back. -/
def get_mutants (ga : GA) (ω : Rng) (pop : List Solution) (size : ℤ) (t uid fuel : ℕ) :
    Except Err (List Solution × ℕ × ℕ) :=
  if pop.length < 3 then .error .valueErr
  else if size < 0 then .error .valueErr
  else
    match get_mutants_loop ga ω pop size.toNat fuel [] t uid with
    | .error e => .error e
    | .ok (acc, t1, uid1) =>
      let trunc := acc.take size.toNat
      let m := _mutate_population_transformed ω trunc t1
      let b := _transform_population_back ga m.1 uid1
      .ok (b.1, m.2, b.2)

/-- `GA.generate_solution` (`ga.py` lines 167-175): draw a transformed gene
vector uniformly within the transformed bounds (the draws come from the
random source), transform it back, and wrap it as a fresh solution with an
empty payload. -/
def generate_solution (ga : GA) (ω : Rng) (t uid : ℕ) : Solution × ℕ × ℕ :=
  (mkSolution (ga.transform_genes_back (ω.gen t)) [] uid, t + 1, uid + 1)

/-- `GA.generate_population` (`ga.py` lines 177-178): `n` independent calls
to `generate_solution`. -/
def generate_population (ga : GA) (ω : Rng) : (n : ℕ) → (t uid : ℕ) → List Solution × ℕ × ℕ
  | 0, t, uid => ([], t, uid)
  | n + 1, t, uid =>
    let s := generate_solution ga ω t uid
    let r := generate_population ga ω n s.2.1 s.2.2
    (s.1 :: r.1, r.2)

/-- A dynamically-typed Python value inside a list argument: a solution, an
`int`, or any other object (modelled as carrying no solution attributes). -/
inductive PyVal where
  | sol (s : Solution)
  | intVal (n : ℤ)
  | other
deriving DecidableEq

/-- Whether a list element is an actual solution. -/
def PyVal.isSol : PyVal → Bool
  | .sol _ => true
  | _ => false

/-- A dynamically-typed Python argument as passed to `GA.mutate_population`:
a list of arbitrary values, an `int`, or any other object. -/
inductive PyArg where
  | list (elems : List PyVal)
  | intVal (n : ℤ)
  | other
deriving DecidableEq

/-- Whether the argument is an actual population: a list whose every
element is a solution. -/
def PyArg.isPopulation : PyArg → Bool
  | .list elems => elems.all PyVal.isSol
  | _ => false

/-- `GA._transform_population` (`ga.py` lines 180-181) over the elements of
a dynamically-typed list: each element in order reaches
`GA._transform_solution` (`ga.py` lines 154-159), whose first step accesses
`sol.x` — on a non-solution element Python raises `AttributeError` there. -/
def _transform_population_py (ga : GA) : List PyVal → ℕ → Except Err (List Solution × ℕ)
  | [], uid => .ok ([], uid)
  | .sol s :: rest, uid =>
    let p := _transform_solution ga s uid
    match _transform_population_py ga rest p.2 with
    | .error e => .error e
    | .ok r => .ok (p.1 :: r.1, r.2)
  | .intVal _ :: _, _ => .error .attrErr
  | .other :: _, _ => .error .attrErr

/-- `GA.mutate_population` (`ga.py` lines 186-192) over a dynamically-typed
argument.  An argument that is neither a `list` nor an `int` fails the
`isinstance(population, (list, int))` check with `TypeError`; an `int`
passes that check but raises `TypeError` immediately after, when
`_transform_population` iterates it (`for sol in population` on an `int`);
a list — whatever its elements — passes the check, and its elements are
forward-transformed (which raises `AttributeError` at `sol.x` on any
non-solution element), Cauchy-mutated and transformed back. -/
def mutate_population (ga : GA) (ω : Rng) (arg : PyArg) (t uid : ℕ) :
    Except Err (List Solution × ℕ × ℕ) :=
  match arg with
  | .list elems =>
    match _transform_population_py ga elems uid with
    | .error e => .error e
    | .ok a =>
      let m := _mutate_population_transformed ω a.1 t
      let b := _transform_population_back ga m.1 a.2
      .ok (b.1, m.2, b.2)
  | .intVal _ => .error .typeErr
  | .other => .error .typeErr

/-- One generation of `GA.run` (`ga.py` lines 336-341): evaluate every
solution, filter, take the `n_elites` best survivors, produce
`n_solutions - n_elites` mutants from the filtered survivor set, and
recombine with the elites first. -/
def run_epoch (ga : GA) (ω : Rng) (n_solutions n_elites : ℤ) (fuel : ℕ)
    (st : List Solution × ℕ × ℕ) : Except Err (List Solution × ℕ × ℕ) :=
  let pop := filter_population ga (update_population ga st.1)
  match get_elites pop n_elites with
  | .error e => .error e
  | .ok elites =>
    match get_mutants ga ω pop (n_solutions - n_elites) st.2.1 st.2.2 fuel with
    | .error e => .error e
    | .ok (mutants, t, uid) => .ok (elites ++ mutants, t, uid)

/-- The `for i in range(n_epochs)` loop of `GA.run` (`ga.py` lines
336-341). -/
def run_epochs (ga : GA) (ω : Rng) (n_solutions n_elites : ℤ) (fuel : ℕ) :
    (n : ℕ) → (st : List Solution × ℕ × ℕ) → Except Err (List Solution × ℕ × ℕ)
  | 0, st => .ok st
  | n + 1, st =>
    match run_epoch ga ω n_solutions n_elites fuel st with
    | .error e => .error e
    | .ok st' => run_epochs ga ω n_solutions n_elites fuel n st'

/-- `GA.run` (`ga.py` lines 318-342): validate the three integer arguments
(the `isinstance` checks are absorbed by the types), generate the initial
population, and iterate the generation step `n_epochs` times; the final
population is returned exactly as the last recombination produced it. -/
def run (ga : GA) (ω : Rng) (n_solutions n_epochs n_elites : ℤ) (fuel : ℕ) :
    Except Err (List Solution) :=
  if n_solutions < 0 then .error .valueErr
  else if n_epochs < 0 then .error .valueErr
  else if ¬ (0 ≤ n_elites ∧ n_elites ≤ n_solutions) then .error .valueErr
  else
    match run_epochs ga ω n_solutions n_elites fuel n_epochs.toNat
        (generate_population ga ω n_solutions.toNat 0 0) with
    | .error e => .error e
    | .ok st => .ok st.1

/-- The constructor arguments of `GA.__init__` (`ga.py` lines 22-34) that
drive the validation chain.  Python's dynamic typing is absorbed by the
types: `bounds` arrives as a numeric array of pairs (so `ndim == 2` and
`shape[1] == 2` hold by construction), `selection_force` as an integer; a
`none` stands for the Python default `None`; a `NaN` entry of `gammas` is
modelled as a `none` entry (NumPy's `gammas <= 0` is false at `NaN`). -/
structure GAInitArgs where
  bounds : List (ℚ × ℚ)
  gammas : Option (List (Option ℚ)) := none
  gamma_default : Option ℚ := some 1
  mask_log10_scale : Option (List Bool) := none
  mutation_rate : ℚ := 1
  crossover_rate : ℚ := 1
  selection_force : ℤ := 2

/-- The validated configuration a completed `GA.__init__` stores. -/
structure GAValidated where
  bounds : List (ℚ × ℚ)
  mask_log10_scale : List Bool
  gamma_default : ℚ
  gammas : List ℚ
  mutation_rate : ℚ
  crossover_rate : ℚ
  selection_force : ℤ
deriving DecidableEq, Repr

/-- The `mask_log10_scale` validation of `GA.__init__` (`ga.py` lines
51-59): a `None` mask becomes all-`false`; a given mask must have one entry
per gene, and a masked gene's lower bound must be strictly positive
(`np.any(bounds[mask, 0] <= 0)` raises). -/
def validate_mask (bounds : List (ℚ × ℚ)) : Option (List Bool) → Except Err (List Bool)
  | none => .ok (List.replicate bounds.length false)
  | some m =>
    if m.length ≠ bounds.length then .error .valueErr
    else if ¬ (List.all (List.zip bounds m) fun p => !p.2 || decide (0 < p.1.1)) then
      .error .valueErr
    else .ok m

/-- The `gamma_default` validation of `GA.__init__` (`ga.py` lines 61-67):
`None` falls back to `1.0`; a non-positive value raises. -/
def validate_gamma_default : Option ℚ → Except Err ℚ
  | none => .ok 1
  | some g => if g ≤ 0 then .error .valueErr else .ok g

/-- The `gammas` validation of `GA.__init__` (`ga.py` lines 69-79): `None`
broadcasts the default; a given vector must have one entry per gene and no
non-positive entry (a `NaN` entry — modelled `none` — passes the
`np.any(gammas <= 0)` test and falls back to the default). -/
def validate_gammas (bounds : List (ℚ × ℚ)) (gd : ℚ) :
    Option (List (Option ℚ)) → Except Err (List ℚ)
  | none => .ok (List.replicate bounds.length gd)
  | some γs =>
    if γs.length ≠ bounds.length then .error .valueErr
    else if ¬ (List.all γs fun γ => match γ with | some v => decide (0 < v) | none => true)
      then .error .valueErr
    else .ok (γs.map fun γ => γ.getD gd)

/-- `GA.__init__` (`ga.py` lines 22-111), check for check in source order:
an empty bounds array, an out-of-order bound pair, an invalid log-scale
mask, an invalid `gamma_default`, invalid `gammas`, a mutation or crossover
rate outside `[0, 1]`, and a `selection_force` below 2 each raise
immediately, so construction never completes partially and nothing is
clamped.  The `issubclass` / `isinstance` capability checks on
`SolutionSubclass`, `selection_force`, `keys_data_transmit` and `rng` are
absorbed by the argument types; the derivation of the cached transformed
bounds (between the `gammas` and the `mutation_rate` checks in the source)
cannot raise, and is modelled in the transform section rather than here. -/
def GA_init (a : GAInitArgs) : Except Err GAValidated :=
  if a.bounds.length = 0 then .error .valueErr
  else if ¬ (List.all a.bounds fun b => decide (b.1 < b.2)) then .error .valueErr
  else
    match validate_mask a.bounds a.mask_log10_scale with
    | .error e => .error e
    | .ok mask =>
      match validate_gamma_default a.gamma_default with
      | .error e => .error e
      | .ok gd =>
        match validate_gammas a.bounds gd a.gammas with
        | .error e => .error e
        | .ok gammas =>
          if ¬ (0 ≤ a.mutation_rate ∧ a.mutation_rate ≤ 1) then .error .valueErr
          else if ¬ (0 ≤ a.crossover_rate ∧ a.crossover_rate ≤ 1) then .error .valueErr
          else if a.selection_force < 2 then .error .valueErr
          else .ok ⟨a.bounds, mask, gd, gammas, a.mutation_rate, a.crossover_rate,
            a.selection_force⟩

/-- Modelled from the spec: the per-gene scaling step of the gene transform
(`transform_genes_bounds` in `pypoptim.helpers`, not under `src/`): a
log-scaled gene passes through `log10` first, a linear gene is untouched. -/
noncomputable def gene_scale (log10scale : Bool) (v : ℝ) : ℝ :=
  if log10scale then Real.logb 10 v else v

/-- Modelled from the spec: the per-gene forward map of
`transform_genes_bounds`: after the scaling step, an affine remap sends the
(scaled) raw bound interval onto the normalized interval `[0, gamma]`, so
that every gene presents a gamma-controlled scale to the variation
operators. -/
noncomputable def gene_forward (g lo hi γ : ℝ) (log10scale : Bool) : ℝ :=
  (gene_scale log10scale g - gene_scale log10scale lo) *
    (γ / (gene_scale log10scale hi - gene_scale log10scale lo))

/-- Modelled from the spec: the transformed bound pair of one gene, derived
once at construction at the reference point (the lower bound): the
normalized interval `[0, gamma]`. -/
def gene_bounds_transformed (γ : ℝ) : ℝ × ℝ := (0, γ)

/-- Modelled from the spec: the per-gene backward map of
`transform_genes_bounds_back` (in `pypoptim.helpers`, not under `src/`):
invert the affine remap using the matching transformed bound pair and the
raw bounds, then undo the `log10` of a log-scaled gene. -/
noncomputable def gene_backward (gt : ℝ) (bt : ℝ × ℝ) (lo hi : ℝ) (log10scale : Bool) : ℝ :=
  let u := gt * ((gene_scale log10scale hi - gene_scale log10scale lo) / (bt.2 - bt.1)) +
    gene_scale log10scale lo
  if log10scale then (10 : ℝ) ^ u else u

/-- Modelled from the spec: the gene-vector part of
`transform_genes_bounds`, one gene at a time. -/
noncomputable def forward_genes_list :
    List ℝ → List (ℝ × ℝ) → List ℝ → List Bool → List ℝ
  | g :: gs, b :: bs, γ :: γs, m :: ms =>
    gene_forward g b.1 b.2 γ m :: forward_genes_list gs bs γs ms
  | _, _, _, _ => []

/-- Modelled from the spec: `transform_genes_bounds(genes, bounds, gammas,
mask)` returns the transformed gene vector together with the transformed
bounds; the transformed bounds depend only on the gammas (they are the
normalized intervals), which is what lets `GA.__init__` cache them and
`GA._transform_genes` assert that a re-derivation reproduces them. -/
noncomputable def transform_genes_bounds (genes : List ℝ) (bounds : List (ℝ × ℝ))
    (gammas : List ℝ) (mask : List Bool) : List ℝ × List (ℝ × ℝ) :=
  (forward_genes_list genes bounds gammas mask, gammas.map gene_bounds_transformed)

/-- Modelled from the spec: `transform_genes_bounds_back(genes_transformed,
bounds_transformed, bounds, mask)`, one gene at a time. -/
noncomputable def transform_genes_bounds_back :
    List ℝ → List (ℝ × ℝ) → List (ℝ × ℝ) → List Bool → List ℝ
  | g :: gs, bt :: bts, b :: bs, m :: ms =>
    gene_backward g bt b.1 b.2 m :: transform_genes_bounds_back gs bts bs ms
  | _, _, _, _ => []

/-- The per-gene preconditions of the round-trip, aligned with the four
per-gene lists: a positive gamma, an ordered bound pair, a strictly positive
lower bound wherever the log-scale mask is set, and a gene within its raw
bounds; mismatched lengths satisfy it never. -/
def roundtrip_hyps : List ℝ → List (ℝ × ℝ) → List ℝ → List Bool → Prop
  | [], [], [], [] => True
  | g :: gs, b :: bs, γ :: γs, m :: ms =>
    (0 < γ ∧ b.1 < b.2 ∧ (m = true → 0 < b.1) ∧ b.1 ≤ g ∧ g ≤ b.2) ∧
      roundtrip_hyps gs bs γs ms
  | _, _, _, _ => False

/-- A heap of numeric arrays, for the one aliasing-sensitive operation of
the engine: the `GA.bounds` property (`ga.py` lines 113-115), which returns
`self._bounds.copy()`.  An array reference is its index; `alloc` appends a
fresh array. -/
structure Heap where
  arrays : List (List (ℚ × ℚ))
deriving DecidableEq, Repr

/-- Read the array behind a reference. -/
def Heap.read (h : Heap) (r : ℕ) : List (ℚ × ℚ) :=
  h.arrays.getD r []

/-- Overwrite one entry of the array behind a reference (an in-place NumPy
element assignment, the mutation the claim guards against). -/
def Heap.write (h : Heap) (r i : ℕ) (v : ℚ × ℚ) : Heap :=
  ⟨h.arrays.set r ((h.arrays.getD r []).set i v)⟩

/-- Allocate a fresh array holding the given contents. -/
def Heap.alloc (h : Heap) (contents : List (ℚ × ℚ)) : Heap × ℕ :=
  (⟨h.arrays ++ [contents]⟩, h.arrays.length)

/-- The `GA.bounds` property (`ga.py` lines 113-115): allocate and return a
copy of the stored bounds array (`self._bounds.copy()`); `bref` is the
reference the engine holds in `self._bounds`. -/
def bounds_property (h : Heap) (bref : ℕ) : Heap × ℕ :=
  h.alloc (h.read bref)

/-! Concrete fixtures on which the theorems below are instantiated. -/

/-- A caller `update` hook that marks a solution evaluated and valid. -/
def update_all (s : Solution) : Solution :=
  { s with updated := true, valid := true }

/-- A concrete engine configuration: one gene on `[0, 1]`, identity
transforms, certain crossover, no payload transmission. -/
def ga_fx : GA :=
  { bounds := [((0 : ℚ), 1)], crossover_rate := 1, selection_force := 2,
    keys_data_transmit := [], transform_genes := id, transform_genes_back := id,
    update_hook := update_all }

/-- `ga_fx` with crossover switched off. -/
def ga_fx0 : GA :=
  { ga_fx with crossover_rate := 0 }

/-- `ga_fx` transmitting the payload key `a`. -/
def ga_fxk : GA :=
  { ga_fx with keys_data_transmit := ["a"] }

/-- A concrete random source: the tournament started at time `t` draws only
position `t`, uniform draws are `0`, SBX returns the parents' genes, Cauchy
mutation and generation are constant. -/
def rng_fx : Rng :=
  { sel := fun t _ => t, unif := fun _ => 0, sbx := fun _ g1 g2 => (g1, g2),
    mutGenes := fun _ g => g, gen := fun _ => [mkRat 1 2] }

/-- `rng_fx` with uniform draws of `1` (so a crossover with rate `0` takes
the no-crossover branch). -/
def rng_fx1 : Rng :=
  { rng_fx with unif := fun _ => 1 }

/-- Three evaluated, valid, in-bounds solutions with distinct identities. -/
def pop_fx : List Solution :=
  [⟨[mkRat 1 2], 0, [], true, true, 0⟩, ⟨[mkRat 1 2], 0, [], true, true, 1⟩,
    ⟨[mkRat 1 2], 0, [], true, true, 2⟩]

/-- Three solutions with fitnesses `3`, `1`, `2`, for the elitism claim. -/
def pop_el : List Solution :=
  [⟨[mkRat 1 2], 3, [], true, true, 0⟩, ⟨[mkRat 1 2], 1, [], true, true, 1⟩,
    ⟨[mkRat 1 2], 2, [], true, true, 2⟩]

deriving instance DecidableEq for Except

/-! Theorems. -/

/-- Claim C5: for every population, `filter_population` drops a solution if
and only if it is not updated, or not valid, or has some gene outside the
raw bounds; every other solution survives, and the survivors keep their
relative order (they form a sublist of the input). -/
theorem claim_C5_filter_population (ga : GA) (pop : List Solution) :
    filter_population ga pop =
      pop.filter (fun s => s.updated && s.valid && is_solution_inside_bounds ga s) ∧
    (filter_population ga pop).Sublist pop ∧
    ∀ s, s ∈ filter_population ga pop ↔
      s ∈ pop ∧ s.updated = true ∧ s.valid = true ∧ is_solution_inside_bounds ga s = true := by
  have hf : filter_population ga pop =
      pop.filter (fun s => s.updated && s.valid && is_solution_inside_bounds ga s) := by
    induction pop with
    | nil => rfl
    | cons a l ih =>
      by_cases h1 : a.updated <;> by_cases h2 : a.valid <;>
        by_cases h3 : is_solution_inside_bounds ga a <;>
        simp [filter_population, List.filter_cons, h1, h2, h3, ih]
  refine ⟨hf, ?_, ?_⟩
  · rw [hf]; exact List.filter_sublist _
  · intro s
    rw [hf]
    simp [List.mem_filter, and_assoc]

/-- Claim C7: GA construction raises a fatal configuration error for
`crossover_rate = 1.5`, for `selection_force = 1`, and for a log-scale mask
marking a gene whose lower bound is not strictly positive
(`mask_log10_scale = [true]` with `bounds = [(-1, 5)]`); the validator is a
pure function returning the error, so construction never completes
partially and never clamps. -/
theorem claim_C7_init_rejects :
    GA_init { bounds := [((0 : ℚ), 1)], crossover_rate := mkRat 3 2 } = .error .valueErr ∧
    GA_init { bounds := [((0 : ℚ), 1)], selection_force := 1 } = .error .valueErr ∧
    GA_init { bounds := [((-1 : ℚ), 5)], mask_log10_scale := some [true] }
      = .error .valueErr := by
  refine ⟨by decide, by decide, by decide⟩

/-- Transforming a dynamically-typed list that holds some non-solution
element raises `AttributeError` (at the first such element's `sol.x`). -/
theorem transform_population_py_attr (ga : GA) :
    ∀ (elems : List PyVal) (uid : ℕ), elems.all PyVal.isSol = false →
      _transform_population_py ga elems uid = .error .attrErr := by
  intro elems
  induction elems with
  | nil => intro uid h; simp at h
  | cons v rest ih =>
    intro uid h
    simp only [List.all_cons] at h
    cases v with
    | sol s =>
      rw [show PyVal.isSol (.sol s) = true from rfl, Bool.true_and] at h
      simp only [_transform_population_py]
      rw [ih _ h]
    | intVal n => rfl
    | other => rfl

/-- Counterexample to claim C9 as stated: the list `[1, 2, 3]` is not a
population, yet `mutate_population` passes the
`isinstance(population, (list, int))` type check on it and fails only later,
with `AttributeError` at `sol.x` inside `_transform_solution` — not with
the claimed fatal type error. -/
theorem claim_C9_counterexample :
    (PyArg.list [.intVal 1, .intVal 2, .intVal 3]).isPopulation = false ∧
    mutate_population ga_fx rng_fx (PyArg.list [.intVal 1, .intVal 2, .intVal 3]) 0 0
      = .error .attrErr ∧
    Err.attrErr ≠ Err.typeErr :=
  ⟨by decide, by decide, by decide⟩

/-- Claim C9 (amended): `mutate_population` fails fatally on every argument
that is not a population, but not always with the type error of the
explicit check: a non-list non-int argument raises `TypeError` from
`isinstance`, an `int` raises `TypeError` when iterated, and a list holding
any non-solution element passes the type check and raises `AttributeError`
when the element's `sol.x` is accessed during transformation. -/
theorem claim_C9_mutate_population_errors (ga : GA) (ω : Rng) (arg : PyArg)
    (t uid : ℕ) (h : arg.isPopulation = false) :
    (∃ e, mutate_population ga ω arg t uid = .error e) ∧
    (arg = .other → mutate_population ga ω arg t uid = .error .typeErr) ∧
    (∀ n, arg = .intVal n → mutate_population ga ω arg t uid = .error .typeErr) ∧
    (∀ elems, arg = .list elems → mutate_population ga ω arg t uid = .error .attrErr) := by
  cases arg with
  | list elems =>
    have hall : elems.all PyVal.isSol = false := by
      simpa [PyArg.isPopulation] using h
    have hres : mutate_population ga ω (.list elems) t uid = .error .attrErr := by
      simp only [mutate_population]
      rw [transform_population_py_attr ga elems uid hall]
    refine ⟨⟨_, hres⟩, ?_, ?_, ?_⟩
    · intro hc; cases hc
    · intro n hc; cases hc
    · intro es hc; cases hc; exact hres
  | intVal n =>
    refine ⟨⟨_, rfl⟩, ?_, ?_, ?_⟩
    · intro hc; cases hc
    · intro m hc; rfl
    · intro es hc; cases hc
  | other =>
    refine ⟨⟨_, rfl⟩, ?_, ?_, ?_⟩
    · intro _; rfl
    · intro m hc; cases hc
    · intro es hc; cases hc

/-- Witness for the amended claim C9: a mixed list whose first element is a
genuine solution and whose second is the `int` 7 — not a population; the
call fails with `AttributeError` after transforming the first element. -/
theorem claim_C9_witness :
    ((PyArg.list [.sol ⟨[1], 0, [], true, true, 0⟩, .intVal 7]).isPopulation = false) ∧
    mutate_population ga_fx rng_fx
      (PyArg.list [.sol ⟨[1], 0, [], true, true, 0⟩, .intVal 7]) 0 0 = .error .attrErr :=
  ⟨by decide,
    (claim_C9_mutate_population_errors ga_fx rng_fx
      (PyArg.list [.sol ⟨[1], 0, [], true, true, 0⟩, .intVal 7]) 0 0 (by decide)).2.2.2 _ rfl⟩

/-- Claim C10: the `bounds` accessor returns a copy — a reference distinct
from the stored array, with equal contents — and however the copy is
subsequently mutated, the engine's stored bounds array reads back
unchanged. -/
theorem claim_C10_bounds_accessor (h : Heap) (bref : ℕ) (hv : bref < h.arrays.length) :
    (bounds_property h bref).2 ≠ bref ∧
    Heap.read (bounds_property h bref).1 bref = h.read bref ∧
    ∀ i v, Heap.read (Heap.write (bounds_property h bref).1 (bounds_property h bref).2 i v)
      bref = h.read bref := by
  refine ⟨by simp only [bounds_property, Heap.alloc]; omega, ?_, ?_⟩
  · simp only [bounds_property, Heap.alloc, Heap.read]
    rw [List.getD_eq_getElem?_getD, List.getElem?_append_left hv, ← List.getD_eq_getElem?_getD]
  · intro i v
    simp only [bounds_property, Heap.alloc, Heap.write, Heap.read]
    rw [List.getD_eq_getElem?_getD, List.getElem?_set_ne (by omega)]
    rw [List.getElem?_append_left hv, ← List.getD_eq_getElem?_getD]

/-- Witness for claim C10 on a one-array heap. -/
theorem claim_C10_witness :
    (bounds_property ⟨[[((0 : ℚ), 1)]]⟩ 0).2 ≠ 0 ∧
    Heap.read (bounds_property ⟨[[((0 : ℚ), 1)]]⟩ 0).1 0
      = Heap.read ⟨[[((0 : ℚ), 1)]]⟩ 0 :=
  ⟨(claim_C10_bounds_accessor ⟨[[((0 : ℚ), 1)]]⟩ 0 (by decide)).1,
    (claim_C10_bounds_accessor ⟨[[((0 : ℚ), 1)]]⟩ 0 (by decide)).2.1⟩

/-- Any result the parent-selection retry loop returns is a pair of
distinct-by-identity solutions, because the loop only exits its redraw
while-condition when the two differ. -/
theorem select_ok_distinct (ga : GA) (ω : Rng) (pop : List Solution) :
    ∀ (fuel : ℕ) (p1 p2 : Solution) (t : ℕ) (r : Solution × Solution × ℕ),
      select_distinct_parents ga ω pop fuel p1 p2 t = .ok r → r.1.uid ≠ r.2.1.uid := by
  intro fuel
  induction fuel with
  | zero =>
    intro p1 p2 t r h
    by_cases he : p1.uid = p2.uid
    · simp [select_distinct_parents, he] at h
    · simp [select_distinct_parents, he] at h
      cases h
      exact he
  | succ fuel ih =>
    intro p1 p2 t r h
    by_cases he : p1.uid = p2.uid
    · simp only [select_distinct_parents, he, if_pos] at h
      exact ih _ _ _ _ h
    · simp [select_distinct_parents, he] at h
      cases h
      exact he

/-- Claim C6: whenever the population offers at least two distinct-by-
identity candidates, every parent pair the tournament-retry loop of
`get_mutants` draws (starting, as the source does, from
`population[0], population[0]`) consists of two distinct instances. -/
theorem claim_C6_distinct_parents (ga : GA) (ω : Rng) (pop : List Solution)
    (fuel t : ℕ) (p1 p2 : Solution) (t' : ℕ)
    (hpop : ∃ a ∈ pop, ∃ b ∈ pop, a.uid ≠ b.uid)
    (h : select_distinct_parents ga ω pop fuel (pop.getD 0 defSol) (pop.getD 0 defSol) t
      = .ok (p1, p2, t')) :
    p1.uid ≠ p2.uid :=
  select_ok_distinct ga ω pop fuel _ _ t (p1, p2, t') h

/-- Witness for claim C6: one redraw round on the three-solution fixture
returns the first two population members, which are distinct instances. -/
theorem claim_C6_witness :
    select_distinct_parents ga_fx rng_fx pop_fx 1 (pop_fx.getD 0 defSol)
        (pop_fx.getD 0 defSol) 0
      = .ok (⟨[mkRat 1 2], 0, [], true, true, 0⟩, ⟨[mkRat 1 2], 0, [], true, true, 1⟩, 2) ∧
    (⟨[mkRat 1 2], 0, [], true, true, 0⟩ : Solution).uid
      ≠ (⟨[mkRat 1 2], 0, [], true, true, 1⟩ : Solution).uid :=
  ⟨by decide, claim_C6_distinct_parents ga_fx rng_fx pop_fx 1 0 _ _ 2 (by decide) (by decide)⟩

/-- The solution comparison is transitive. -/
theorem ble_trans : ∀ a b c : Solution,
    Solution.ble a b → Solution.ble b c → Solution.ble a c := by
  intro a b c hab hbc
  simp only [Solution.ble, decide_eq_true_eq] at *
  exact le_trans hab hbc

/-- The solution comparison is total. -/
theorem ble_total : ∀ a b : Solution, Solution.ble a b || Solution.ble b a := by
  intro a b
  simp only [Solution.ble, Bool.or_eq_true, decide_eq_true_eq]
  exact le_total a.y b.y

/-- The sort under the solution comparison is sorted by fitness. -/
theorem mergeSort_sorted_y (pop : List Solution) :
    (pop.mergeSort Solution.ble).Pairwise (fun a b => a.y ≤ b.y) := by
  have h := List.sorted_mergeSort ble_trans ble_total pop
  exact h.imp (fun hab => by simpa [Solution.ble] using hab)

/-- Claim C4: for `0 ≤ m ≤ len(pop)`, `get_elites` returns exactly the `m`
smallest solutions under the solution total order, sorted ascending (they
are an initial segment of a sorted permutation of the population, and each
is at most every excluded solution); for `m` outside that range it fails
with Python's `ValueError` (a non-integer `m` is Python's `TypeError`,
absorbed here by the type of `m`). -/
theorem claim_C4_get_elites (pop : List Solution) (m : ℤ) :
    (0 ≤ m → m ≤ pop.length →
      ∃ l rest, get_elites pop m = .ok l ∧ l.length = m.toNat ∧
        l.Pairwise (fun a b => a.y ≤ b.y) ∧ (l ++ rest).Perm pop ∧
        ∀ a ∈ l, ∀ b ∈ rest, a.y ≤ b.y) ∧
    (¬ (0 ≤ m ∧ m ≤ pop.length) → get_elites pop m = .error .valueErr) := by
  constructor
  · intro h0 hm
    refine ⟨(pop.mergeSort Solution.ble).take m.toNat,
      (pop.mergeSort Solution.ble).drop m.toNat, ?_, ?_, ?_, ?_, ?_⟩
    · unfold get_elites
      rw [if_pos ⟨h0, hm⟩]
    · rw [List.length_take, List.length_mergeSort]
      omega
    · exact (mergeSort_sorted_y pop).sublist (List.take_sublist _ _)
    · rw [List.take_append_drop]
      exact List.mergeSort_perm pop _
    · have hs : ((pop.mergeSort Solution.ble).take m.toNat ++
          (pop.mergeSort Solution.ble).drop m.toNat).Pairwise (fun a b => a.y ≤ b.y) := by
        rw [List.take_append_drop]
        exact mergeSort_sorted_y pop
      exact fun a ha b hb => (List.pairwise_append.mp hs).2.2 a ha b hb
  · intro hneg
    unfold get_elites
    rw [if_neg hneg]

/-- Witness for claim C4 on the three-solution fixture with `m = 2`. -/
theorem claim_C4_witness :
    (0 ≤ (2 : ℤ)) ∧ ((2 : ℤ) ≤ (pop_el.length : ℤ)) ∧
    (∃ l rest, get_elites pop_el 2 = .ok l ∧ l.length = (2 : ℤ).toNat ∧
      l.Pairwise (fun a b => a.y ≤ b.y) ∧ (l ++ rest).Perm pop_el ∧
      ∀ a ∈ l, ∀ b ∈ rest, a.y ≤ b.y) :=
  ⟨by decide, by decide, (claim_C4_get_elites pop_el 2).1 (by decide) (by decide)⟩

/-- Backward-transforming a population preserves its length. -/
theorem transform_population_back_length (ga : GA) :
    ∀ (l : List Solution) (uid : ℕ),
      (_transform_population_back ga l uid).1.length = l.length := by
  intro l
  induction l with
  | nil => intro uid; rfl
  | cons s ss ih =>
    intro uid
    simp only [_transform_population_back, List.length_cons, ih]

/-- Every solution a backward population transform produces is a fresh
object that has not been evaluated. -/
theorem transform_population_back_not_updated (ga : GA) :
    ∀ (l : List Solution) (uid : ℕ) (s : Solution),
      s ∈ (_transform_population_back ga l uid).1 → s.updated = false := by
  intro l
  induction l with
  | nil => intro uid s h; cases h
  | cons a as ih =>
    intro uid s h
    simp only [_transform_population_back, List.mem_cons] at h
    rcases h with h | h
    · subst h; rfl
    · exact ih _ _ h

/-- Any accumulation the `get_mutants` loop returns holds at least `size`
children. -/
theorem get_mutants_loop_ge (ga : GA) (ω : Rng) (pop : List Solution) (size : ℕ) :
    ∀ (fuel : ℕ) (acc : List Solution) (t uid : ℕ) (r : List Solution × ℕ × ℕ),
      get_mutants_loop ga ω pop size fuel acc t uid = .ok r → size ≤ r.1.length := by
  intro fuel
  induction fuel with
  | zero =>
    intro acc t uid r h
    by_cases hlt : acc.length < size
    · simp only [get_mutants_loop, if_pos hlt] at h
      cases h
    · simp only [get_mutants_loop, if_neg hlt] at h
      cases h
      exact Nat.le_of_not_lt hlt
  | succ fuel ih =>
    intro acc t uid r h
    by_cases hlt : acc.length < size
    · simp only [get_mutants_loop, if_pos hlt] at h
      split at h
      · cases h
      · split at h
        · cases h
        · exact ih _ _ _ _ h
    · simp only [get_mutants_loop, if_neg hlt] at h
      cases h
      exact Nat.le_of_not_lt hlt

/-- A completed `get_mutants` call returns exactly `size` solutions, none of
them evaluated. -/
theorem get_mutants_ok_spec (ga : GA) (ω : Rng) (pop : List Solution) (size : ℤ)
    (t uid fuel : ℕ) (res : List Solution) (t' u' : ℕ)
    (h : get_mutants ga ω pop size t uid fuel = .ok (res, t', u')) :
    res.length = size.toNat ∧ ∀ s ∈ res, s.updated = false := by
  unfold get_mutants at h
  by_cases h3 : pop.length < 3
  · rw [if_pos h3] at h
    cases h
  rw [if_neg h3] at h
  by_cases hsz : size < 0
  · rw [if_pos hsz] at h
    cases h
  rw [if_neg hsz] at h
  cases hloop : get_mutants_loop ga ω pop size.toNat fuel [] t uid with
  | error e => rw [hloop] at h; cases h
  | ok v =>
    obtain ⟨acc, t1, uid1⟩ := v
    rw [hloop] at h
    simp only [_mutate_population_transformed] at h
    cases h
    constructor
    · rw [transform_population_back_length, List.length_mapIdx, List.length_take]
      have h2 : size.toNat ≤ acc.length :=
        get_mutants_loop_ge ga ω pop size.toNat fuel [] t uid _ hloop
      omega
    · intro s hs
      exact transform_population_back_not_updated ga _ _ s hs

/-- Claim C1: for every population of length at least 3 and every integer
`size = k ≥ 0` (odd sizes included), a `get_mutants` call that completes
returns exactly `k` solutions. -/
theorem claim_C1_get_mutants_size (ga : GA) (ω : Rng) (pop : List Solution)
    (size : ℤ) (t uid fuel : ℕ) (res : List Solution) (t' u' : ℕ)
    (hpop : 3 ≤ pop.length) (hsz : 0 ≤ size)
    (h : get_mutants ga ω pop size t uid fuel = .ok (res, t', u')) :
    res.length = size.toNat :=
  (get_mutants_ok_spec ga ω pop size t uid fuel res t' u' h).1

/-- Witness for claim C1: an odd `size = 3` on the three-solution fixture. -/
theorem claim_C1_witness :
    (3 ≤ pop_fx.length) ∧ (0 ≤ (3 : ℤ)) ∧
    ([⟨[mkRat 1 2], 0, [], false, false, 8⟩, ⟨[mkRat 1 2], 0, [], false, false, 9⟩,
      ⟨[mkRat 1 2], 0, [], false, false, 10⟩] : List Solution).length = (3 : ℤ).toNat :=
  ⟨by decide, by decide,
    claim_C1_get_mutants_size ga_fx rng_fx pop_fx 3 0 0 9 _ 11 11 (by decide) (by decide)
      (by decide)⟩

/-- A completed `get_elites` call returns exactly `size` solutions, and its
success certifies the range check. -/
theorem get_elites_ok (pop : List Solution) (size : ℤ) (l : List Solution)
    (h : get_elites pop size = .ok l) :
    l.length = size.toNat ∧ 0 ≤ size ∧ size ≤ pop.length := by
  unfold get_elites at h
  by_cases hc : 0 ≤ size ∧ size ≤ pop.length
  · rw [if_pos hc] at h
    cases h
    refine ⟨?_, hc.1, hc.2⟩
    rw [List.length_take, List.length_mergeSort]
    omega
  · rw [if_neg hc] at h
    cases h

/-- Peeling the last iteration off the epoch loop of `run`. -/
theorem run_epochs_succ (ga : GA) (ω : Rng) (ns k : ℤ) (fuel : ℕ) :
    ∀ (n : ℕ) (st : List Solution × ℕ × ℕ),
      run_epochs ga ω ns k fuel (n + 1) st =
        match run_epochs ga ω ns k fuel n st with
        | .error e => .error e
        | .ok st' => run_epoch ga ω ns k fuel st' := by
  intro n
  induction n with
  | zero =>
    intro st
    simp only [run_epochs]
    cases run_epoch ga ω ns k fuel st <;> rfl
  | succ n ih =>
    intro st
    simp only [run_epochs]
    cases hre : run_epoch ga ω ns k fuel st with
    | error e => rfl
    | ok st1 => exact ih st1

/-- A completed generation step decomposes into its elites and mutants. -/
theorem run_epoch_ok (ga : GA) (ω : Rng) (ns k : ℤ) (fuel : ℕ)
    (st st' : List Solution × ℕ × ℕ) (h : run_epoch ga ω ns k fuel st = .ok st') :
    ∃ el mu t u,
      get_elites (filter_population ga (update_population ga st.1)) k = .ok el ∧
      get_mutants ga ω (filter_population ga (update_population ga st.1)) (ns - k)
        st.2.1 st.2.2 fuel = .ok (mu, t, u) ∧
      st' = (el ++ mu, t, u) := by
  simp only [run_epoch] at h
  cases hel : get_elites (filter_population ga (update_population ga st.1)) k with
  | error e => rw [hel] at h; cases h
  | ok el =>
    rw [hel] at h
    cases hmu : get_mutants ga ω (filter_population ga (update_population ga st.1))
        (ns - k) st.2.1 st.2.2 fuel with
    | error e => rw [hmu] at h; cases h
    | ok v =>
      obtain ⟨mu, t, u⟩ := v
      rw [hmu] at h
      cases h
      exact ⟨el, mu, t, u, rfl, rfl, rfl⟩

/-- Claim C2: a completed `run(n_solutions, n_epochs, n_elites)` consists of
the generation step (Evaluate, Filter, Elites+Mutants, Recombine) applied
exactly `n_epochs` times to the generated initial population — the returned
population is literally the result of the last recombination: the
`n_elites` best survivors first, then the `n_solutions - n_elites` mutants,
`n_solutions` individuals in total — and no evaluation happens after that
recombination (every mutant of the returned population is still
unevaluated). -/
theorem claim_C2_run_shape (ga : GA) (ω : Rng) (ns ne k : ℤ) (fuel : ℕ)
    (pop : List Solution) (hne : 1 ≤ ne) (h : run ga ω ns ne k fuel = .ok pop) :
    ∃ stPrev el mu t u,
      run_epochs ga ω ns k fuel (ne.toNat - 1) (generate_population ga ω ns.toNat 0 0)
        = .ok stPrev ∧
      run_epoch ga ω ns k fuel stPrev = .ok (el ++ mu, t, u) ∧
      pop = el ++ mu ∧
      get_elites (filter_population ga (update_population ga stPrev.1)) k = .ok el ∧
      get_mutants ga ω (filter_population ga (update_population ga stPrev.1)) (ns - k)
        stPrev.2.1 stPrev.2.2 fuel = .ok (mu, t, u) ∧
      el.length = k.toNat ∧ mu.length = (ns - k).toNat ∧ pop.length = ns.toNat ∧
      ∀ s ∈ mu, s.updated = false := by
  unfold run at h
  by_cases hns : ns < 0
  · rw [if_pos hns] at h; cases h
  rw [if_neg hns] at h
  by_cases hnep : ne < 0
  · rw [if_pos hnep] at h; cases h
  rw [if_neg hnep] at h
  rcases Decidable.em (0 ≤ k ∧ k ≤ ns) with hk | hk
  swap
  · rw [if_pos hk] at h; cases h
  rw [if_neg (not_not_intro hk)] at h
  have hne1 : ne.toNat = (ne.toNat - 1) + 1 := by omega
  rw [hne1, run_epochs_succ] at h
  cases hprev : run_epochs ga ω ns k fuel (ne.toNat - 1)
      (generate_population ga ω ns.toNat 0 0) with
  | error e => rw [hprev] at h; cases h
  | ok stPrev =>
    rw [hprev] at h
    dsimp only at h
    cases hep : run_epoch ga ω ns k fuel stPrev with
    | error e => rw [hep] at h; cases h
    | ok st' =>
      rw [hep] at h
      dsimp only at h
      have hpop : pop = st'.1 := by
        have h' := h
        simp only [Except.ok.injEq] at h'
        exact h'.symm
      obtain ⟨el, mu, t, u, hel, hmu, hst'⟩ := run_epoch_ok ga ω ns k fuel stPrev st' hep
      subst hst'
      have hell := get_elites_ok _ _ _ hel
      have hmul := get_mutants_ok_spec _ _ _ _ _ _ _ _ _ _ hmu
      refine ⟨stPrev, el, mu, t, u, rfl, hep, hpop, hel, hmu, hell.1, hmul.1, ?_, hmul.2⟩
      rw [hpop]
      simp only [List.length_append, hell.1, hmul.1]
      omega

/-- Witness for claim C2: a completed one-epoch run of 3 solutions with no
elites on the fixture engine. -/
theorem claim_C2_witness :
    (1 ≤ (1 : ℤ)) ∧
    ∃ stPrev el mu t u,
      run_epochs ga_fx rng_fx 3 0 9 ((1 : ℤ).toNat - 1)
          (generate_population ga_fx rng_fx (3 : ℤ).toNat 0 0) = .ok stPrev ∧
      run_epoch ga_fx rng_fx 3 0 9 stPrev = .ok (el ++ mu, t, u) ∧
      ([⟨[mkRat 1 2], 0, [], false, false, 11⟩, ⟨[mkRat 1 2], 0, [], false, false, 12⟩,
        ⟨[mkRat 1 2], 0, [], false, false, 13⟩] : List Solution) = el ++ mu ∧
      get_elites (filter_population ga_fx (update_population ga_fx stPrev.1)) 0 = .ok el ∧
      get_mutants ga_fx rng_fx (filter_population ga_fx (update_population ga_fx stPrev.1))
        (3 - 0) stPrev.2.1 stPrev.2.2 9 = .ok (mu, t, u) ∧
      el.length = (0 : ℤ).toNat ∧ mu.length = ((3 : ℤ) - 0).toNat ∧
      ([⟨[mkRat 1 2], 0, [], false, false, 11⟩, ⟨[mkRat 1 2], 0, [], false, false, 12⟩,
        ⟨[mkRat 1 2], 0, [], false, false, 13⟩] : List Solution).length = (3 : ℤ).toNat ∧
      ∀ s ∈ mu, s.updated = false :=
  ⟨by decide,
    claim_C2_run_shape ga_fx rng_fx 3 1 0 9 _ (by decide) (by decide)⟩

/-- After the payload-transmission recursion completes, the child holds the
parent's value at every transmitted key and is untouched elsewhere. -/
theorem transmit_go_getItem (parent : Solution) :
    ∀ (ks : List String) (c c' : Solution),
      transmit_data_go parent ks c = .ok c' →
      ∀ k, c'.getItem k = if k ∈ ks then parent.getItem k else c.getItem k := by
  intro ks
  induction ks with
  | nil =>
    intro c c' h k
    cases h
    simp
  | cons k0 ks ih =>
    intro c c' h k
    simp only [transmit_data_go] at h
    cases hv : parent.getItem k0 with
    | none => rw [hv] at h; cases h
    | some v =>
      rw [hv] at h
      rw [ih _ _ h k]
      by_cases hks : k ∈ ks
      · rw [if_pos hks, if_pos (List.mem_cons_of_mem _ hks)]
      · rw [if_neg hks]
        by_cases hk0 : k = k0
        · subst hk0
          rw [if_pos (List.mem_cons_self _ _)]
          have hset : (c.setItem k v).getItem k = some v := by
            simp [Solution.getItem, Solution.setItem]
          rw [hset, hv]
        · rw [if_neg (by simp [hk0, hks] : ¬ k ∈ k0 :: ks)]
          have hbeq : (k == k0) = false := beq_eq_false_iff_ne.mpr hk0
          simp [Solution.getItem, Solution.setItem, List.lookup, hbeq]

/-- Claim C8: when the crossover branch of `get_mutants` is taken, each
child carries, at every key of `keys_data_transmit`, the payload value of
the lesser (minimum under the solution total order) of the two transformed
parents; when the no-crossover branch is taken, the two children are deep
copies of the transformed parents — equal in every field but identity, and
distinct instances from them. -/
theorem claim_C8_children (ga : GA) (ω : Rng) (p1t p2t : Solution) (t uid : ℕ)
    (c1 c2 : Solution) (t' uid' : ℕ)
    (h1 : p1t.uid < uid) (h2 : p2t.uid < uid)
    (h : produce_children ga ω p1t p2t t uid = .ok (c1, c2, t', uid')) :
    (ω.unif t ≤ ga.crossover_rate →
      ∀ k ∈ ga.keys_data_transmit,
        c1.getItem k = (minSol p1t p2t).getItem k ∧
        c2.getItem k = (minSol p1t p2t).getItem k) ∧
    (¬ ω.unif t ≤ ga.crossover_rate →
      c1 = { p1t with uid := uid } ∧ c2 = { p2t with uid := uid + 1 } ∧
      c1.uid ≠ p1t.uid ∧ c2.uid ≠ p2t.uid) := by
  by_cases hc : ω.unif t ≤ ga.crossover_rate
  · simp only [produce_children, if_pos hc] at h
    refine ⟨fun _ k hk => ?_, fun hn => absurd hc hn⟩
    cases ht1 : _transmit_solution_data ga (minSol p1t p2t)
        (mkSolution (ω.sbx (t + 1) p1t.x p2t.x).1 [] uid) with
    | error e => rw [ht1] at h; cases h
    | ok d1 =>
      rw [ht1] at h
      cases ht2 : _transmit_solution_data ga (minSol p1t p2t)
          (mkSolution (ω.sbx (t + 1) p1t.x p2t.x).2 [] (uid + 1)) with
      | error e => rw [ht2] at h; cases h
      | ok d2 =>
        rw [ht2] at h
        cases h
        have g1 := transmit_go_getItem (minSol p1t p2t) ga.keys_data_transmit _ _ ht1 k
        have g2 := transmit_go_getItem (minSol p1t p2t) ga.keys_data_transmit _ _ ht2 k
        rw [if_pos hk] at g1 g2
        exact ⟨g1, g2⟩
  · simp only [produce_children, if_neg hc] at h
    cases h
    refine ⟨fun hcon => absurd hcon hc, fun _ => ⟨rfl, rfl, ?_, ?_⟩⟩
    · show uid ≠ p1t.uid
      omega
    · show uid + 1 ≠ p2t.uid
      omega

/-- Witness for claim C8, both branches on concrete parents: with crossover,
the transmitted key `a` reaches both children from the lesser parent; without
crossover, the children are copies of the transformed parents with fresh
identities. -/
theorem claim_C8_witness :
    ((⟨[1], 5, [("a", 7)], true, true, 0⟩ : Solution).uid < 5) ∧
    ((⟨[2], 4, [("a", 9)], true, true, 1⟩ : Solution).uid < 5) ∧
    (rng_fx.unif 0 ≤ ga_fxk.crossover_rate →
      ∀ k ∈ ga_fxk.keys_data_transmit,
        (⟨[1], 0, [("a", 9)], false, false, 5⟩ : Solution).getItem k
          = (minSol ⟨[1], 5, [("a", 7)], true, true, 0⟩
              ⟨[2], 4, [("a", 9)], true, true, 1⟩).getItem k ∧
        (⟨[2], 0, [("a", 9)], false, false, 6⟩ : Solution).getItem k
          = (minSol ⟨[1], 5, [("a", 7)], true, true, 0⟩
              ⟨[2], 4, [("a", 9)], true, true, 1⟩).getItem k) ∧
    (¬ rng_fx1.unif 0 ≤ ga_fx0.crossover_rate →
      (⟨[1], 5, [("a", 7)], true, true, 5⟩ : Solution)
          = { (⟨[1], 5, [("a", 7)], true, true, 0⟩ : Solution) with uid := 5 } ∧
      (⟨[2], 4, [("a", 9)], true, true, 6⟩ : Solution)
          = { (⟨[2], 4, [("a", 9)], true, true, 1⟩ : Solution) with uid := 5 + 1 } ∧
      (⟨[1], 5, [("a", 7)], true, true, 5⟩ : Solution).uid
          ≠ (⟨[1], 5, [("a", 7)], true, true, 0⟩ : Solution).uid ∧
      (⟨[2], 4, [("a", 9)], true, true, 6⟩ : Solution).uid
          ≠ (⟨[2], 4, [("a", 9)], true, true, 1⟩ : Solution).uid) :=
  ⟨by decide, by decide,
    (claim_C8_children ga_fxk rng_fx ⟨[1], 5, [("a", 7)], true, true, 0⟩
      ⟨[2], 4, [("a", 9)], true, true, 1⟩ 0 5 _ _ 2 7
      (by decide) (by decide) (by decide)).1,
    (claim_C8_children ga_fx0 rng_fx1 ⟨[1], 5, [("a", 7)], true, true, 0⟩
      ⟨[2], 4, [("a", 9)], true, true, 1⟩ 0 5 _ _ 2 7
      (by decide) (by decide) (by decide)).2⟩

/-- One gene round-trips exactly: scaling, the affine remap, its inverse and
the unscaling cancel, for a linear gene and for a log-scaled gene whose
lower bound is strictly positive. -/
theorem roundtrip_gene (g lo hi γ : ℝ) (m : Bool)
    (hγ : 0 < γ) (hlohi : lo < hi) (hpos : m = true → 0 < lo)
    (hg1 : lo ≤ g) (hg2 : g ≤ hi) :
    gene_backward (gene_forward g lo hi γ m) (gene_bounds_transformed γ) lo hi m = g := by
  cases m with
  | false =>
    simp only [gene_backward, gene_forward, gene_scale, gene_bounds_transformed,
      Bool.false_eq_true, if_false]
    have h1 : hi - lo ≠ 0 := sub_ne_zero.mpr hlohi.ne'
    have h2 : γ ≠ 0 := hγ.ne'
    field_simp
  | true =>
    simp only [gene_backward, gene_forward, gene_scale, gene_bounds_transformed, if_true]
    have hlo : 0 < lo := hpos rfl
    have hg : 0 < g := lt_of_lt_of_le hlo hg1
    have hlog : Real.logb 10 lo < Real.logb 10 hi :=
      Real.logb_lt_logb (by norm_num) hlo hlohi
    have h1 : Real.logb 10 hi - Real.logb 10 lo ≠ 0 := sub_ne_zero.mpr hlog.ne'
    have h2 : γ ≠ 0 := hγ.ne'
    have key : (Real.logb 10 g - Real.logb 10 lo) *
        (γ / (Real.logb 10 hi - Real.logb 10 lo)) *
        ((Real.logb 10 hi - Real.logb 10 lo) / (γ - 0)) + Real.logb 10 lo
        = Real.logb 10 g := by
      field_simp
    rw [key]
    exact Real.rpow_logb (by norm_num) (by norm_num) hg

/-- The gene-list round-trip, by recursion over the four per-gene lists. -/
theorem roundtrip_list : ∀ (genes : List ℝ) (bounds : List (ℝ × ℝ)) (gammas : List ℝ)
    (mask : List Bool), roundtrip_hyps genes bounds gammas mask →
    transform_genes_bounds_back (forward_genes_list genes bounds gammas mask)
      (gammas.map gene_bounds_transformed) bounds mask = genes
  | [], [], [], [], _ => rfl
  | g :: gs, b :: bs, γ :: γs, m :: ms, h => by
    obtain ⟨h1, hrest⟩ := h
    simp only [forward_genes_list, List.map, transform_genes_bounds_back]
    rw [roundtrip_gene g b.1 b.2 γ m h1.1 h1.2.1 h1.2.2.1 h1.2.2.2.1 h1.2.2.2.2]
    rw [roundtrip_list gs bs γs ms hrest]
  | [], [], [], _ :: _, h => h.elim
  | [], [], _ :: _, _, h => h.elim
  | [], _ :: _, _, _, h => h.elim
  | _ :: _, [], _, _, h => h.elim
  | _ :: _, _ :: _, [], _, h => h.elim
  | _ :: _, _ :: _, _ :: _, [], h => h.elim

/-- Claim C3: for every gene vector within the raw bounds, applying the
forward transform and then the backward transform with the matching
transformed bounds reproduces the vector — exactly, in the real-number
model of the floating-point computation — for log-scaled and linear genes
alike. -/
theorem claim_C3_transform_roundtrip (genes : List ℝ) (bounds : List (ℝ × ℝ))
    (gammas : List ℝ) (mask : List Bool)
    (hyp : roundtrip_hyps genes bounds gammas mask) :
    transform_genes_bounds_back (transform_genes_bounds genes bounds gammas mask).1
      (transform_genes_bounds genes bounds gammas mask).2 bounds mask = genes :=
  roundtrip_list genes bounds gammas mask hyp

/-- Witness for claim C3: a two-gene vector, one linear gene and one
log-scaled gene, inside the bounds. -/
theorem claim_C3_witness :
    roundtrip_hyps [(2 : ℝ), 1] [((1 : ℝ), 10), ((1/10 : ℝ), 100)] [(1 : ℝ), 2]
      [false, true] ∧
    transform_genes_bounds_back
      (transform_genes_bounds [(2 : ℝ), 1] [((1 : ℝ), 10), ((1/10 : ℝ), 100)] [(1 : ℝ), 2]
        [false, true]).1
      (transform_genes_bounds [(2 : ℝ), 1] [((1 : ℝ), 10), ((1/10 : ℝ), 100)] [(1 : ℝ), 2]
        [false, true]).2
      [((1 : ℝ), 10), ((1/10 : ℝ), 100)] [false, true] = [(2 : ℝ), 1] :=
  ⟨by simp only [roundtrip_hyps]; norm_num,
    claim_C3_transform_roundtrip _ _ _ _ (by simp only [roundtrip_hyps]; norm_num)⟩

end GAMouse
